import Mathlib

/-!
Shallow embedding of `askbot/models/tag.py` (tag registry, wildcard
matching, group-tag creation and the suggested-tag workflow), together
with theorems settling the specification claims about that module.

Python strings are modelled as Lean `String`; every Python string
operation used by the module (`startswith`, slicing `[:-1]`, `strip`,
`lower`, whitespace tests) is defined on the underlying character list
so that all definitions compute by kernel reduction.
-/

/-- Python `s.startswith(stem)`: character-list level startswith test. -/
def pyStartsWith (s stem : String) : Bool :=
  stem.data.isPrefixOf s.data

/-- Python slicing `s[:-1]`: drop the last character (identity on `""`). -/
def pyDropLast (s : String) : String :=
  ⟨s.data.dropLast⟩

/-- Whitespace class of Python `str.strip()` and the regex `\s`:
space, tab, newline, carriage return, vertical tab, form feed. -/
def pyWhitespace (c : Char) : Bool :=
  c = ' ' || c = '\t' || c = '\n' || c = '\r' || c = '\x0b' || c = '\x0c'

/-- Python `s.strip()` on the character list: remove leading and trailing
whitespace. -/
def stripChars (l : List Char) : List Char :=
  ((l.dropWhile pyWhitespace).reverse.dropWhile pyWhitespace).reverse

/-- Regex substitution `re.sub('\s+', '-', s)` on the character list:
replace every maximal run of whitespace by a single dash.  The flag
records whether the previous character belonged to a run whose dash has
already been emitted. -/
def subWsRuns : Bool → List Char → List Char
  | _, [] => []
  | inRun, c :: rest =>
    if pyWhitespace c then
      if inRun then subWsRuns true rest
      else '-' :: subWsRuns true rest
    else c :: subWsRuns false rest

/-- Source `clean_group_name` (tag.py lines 164-168):
`re.sub('\s+', '-', name.strip())`. -/
def clean_group_name (name : String) : String :=
  ⟨subWsRuns false (stripChars name.data)⟩

/-- Python `s.lower()`, used to model Django `name__iexact` lookups. -/
def pyLower (s : String) : String :=
  ⟨s.data.map Char.toLower⟩

/-- Row of the `Tag` model: the fields the specified queries read.
`used_count` is an `Int` so that the defensive assertion of
`separate_unused_tags` (which guards against negative counts) is
expressible; `threads` holds the ids of the threads referencing the
tag. -/
structure Tag where
  name : String
  used_count : Int
  deleted : Bool
  threads : List Nat
deriving DecidableEq

/-- Source `tags_match_some_wildcard` (tag.py lines 45-54): scans the
names, and for each name the wildcards in Python `sorted` order, and
returns `True` on the first name that starts with a wildcard minus its
trailing character. -/
def tags_match_some_wildcard (tag_names wildcard_tags : List String) : Bool :=
  tag_names.any (fun tag_name =>
    (wildcard_tags.mergeSort (fun a b => decide (a ≤ b))).any
      (fun wildcard_tag => pyStartsWith tag_name (pyDropLast wildcard_tag)))

/-- Source `TagQuerySet.get_by_wildcards` (tag.py lines 117-129).  The
queryset is the list `tags`; `wildcards` is `None` or a list.  The
source pops one element off the caller's collection (`wildcards.pop()`,
removing the last element) and ORs a `name__startswith` filter over the
popped element and the remainder; the returned pair carries the query
result and the caller's collection as the call leaves it. -/
def TagQuerySet.get_by_wildcards (tags : List Tag) (wildcards : Option (List String)) :
    List Tag × Option (List String) :=
  match wildcards with
  | none => ([], none)
  | some ws =>
    match ws.getLast? with
    | none => ([], some ws)
    | some first_tag =>
      let rest := ws.dropLast
      (tags.filter (fun t =>
        pyStartsWith t.name (pyDropLast first_tag) ||
          rest.any (fun next_tag => pyStartsWith t.name (pyDropLast next_tag))),
       some rest)

/-- Source `separate_unused_tags` (tag.py lines 30-43): walks the input
in order, appending tags with `used_count == 0` to `unused` and the
others to `used` after the defensive `assert(tag.used_count > 0)`.
`none` models the assertion failing (an exception, no normal return). -/
def separate_unused_tags : List Tag → Option (List Tag × List Tag)
  | [] => some ([], [])
  | tag :: rest =>
    if tag.used_count = 0 then
      (separate_unused_tags rest).map (fun p => (p.1, tag :: p.2))
    else if 0 < tag.used_count then
      (separate_unused_tags rest).map (fun p => (tag :: p.1, p.2))
    else none

/-- Number of the given threads that reference `t`: the value of
`annotate(local_used_count=models.Count('id'))` after
`filter(threads__in=threads)` in `get_related_to_search`. -/
def localCount (threads : List Nat) (t : Tag) : Nat :=
  (t.threads.filter (fun th => threads.contains th)).length

/-- Comparator realising `order_by('-local_used_count', 'name')`:
larger local count first, ties broken by ascending name. -/
def relatedLe (threads : List Nat) (a b : Tag) : Bool :=
  decide (localCount threads b < localCount threads a ∨
    (localCount threads a = localCount threads b ∧ a.name ≤ b.name))

/-- Source `TagQuerySet.get_related_to_search` (tag.py lines 131-137):
keep the tags referenced by at least one of the given threads, order by
descending local count then ascending name, exclude the ignored names
(only when that list is non-empty, matching the `if ignored_tag_names:`
truthiness test), exclude deleted tags, and take the first 50. -/
def TagQuerySet.get_related_to_search (tags : List Tag) (threads : List Nat)
    (ignored_tag_names : List String) : List Tag :=
  let annotated := tags.filter (fun t => decide (0 < localCount threads t))
  let ordered := annotated.mergeSort (relatedLe threads)
  let afterIgnored :=
    if ignored_tag_names.isEmpty then ordered
    else ordered.filter (fun t => !ignored_tag_names.contains t.name)
  (afterIgnored.filter (fun t => !t.deleted)).take 50

/-- Errors the modelled store can raise on `tag.save()`. -/
inductive DBError where
  | integrityError
deriving DecidableEq

/-- Source `GroupTagManager.get_or_create` (tag.py lines 176-192),
against an explicit store of existing tag names.  To expose the
lookup-then-create race, the store is given as two snapshots: the rows
visible to `self.get(name__iexact=...)` (`storeAtLookup`) and the rows
visible when `tag.save()` runs (`storeAtCreate`).  The `iexact` lookup
compares lowercased names; `save` violating the unique constraint on
`name` is `Except.error DBError.integrityError`.  The source's only
exception handler is `except self.model.DoesNotExist` around the
lookup — modelled by the `none` branch of `find?` — so an integrity
error raised by `save` leaves the function as an error. -/
def GroupTagManager.get_or_create (storeAtLookup storeAtCreate : List String)
    (group_name : String) (_user : Nat) : Except DBError String :=
  let name := clean_group_name group_name
  match storeAtLookup.find? (fun t => pyLower t == pyLower name) with
  | some tag => Except.ok tag
  | none =>
    if storeAtCreate.contains name then Except.error DBError.integrityError
    else Except.ok name

/-- Row of the `SuggestedTag` model as built by its manager:
`used_count` defaults to 1, and the manager adds the submitting user
and the originating thread to the association sets. -/
structure SuggestedTag where
  name : String
  used_count : Nat
  users : List Nat
  threads : List Nat
deriving DecidableEq

/-- Arguments of the single `mail.mail_moderators` call made by
`SuggestedTagManager.create`: the suggested names, the submitting user
and the thread that the notification body summarises. -/
structure ModNotification where
  tags : List String
  user : Nat
  thread : Nat
deriving DecidableEq

/-- Observable outcome of one `SuggestedTagManager.create` call: the
created rows, the moderator notifications sent, and the messages
appended to the submitting user's message set. -/
structure SuggestedCreateResult where
  suggested_tags : List SuggestedTag
  notifications : List ModNotification
  user_messages : List String
deriving DecidableEq

/-- Source `SuggestedTagManager.create` (tag.py lines 241-279): for each
requested name, save a new `SuggestedTag` and add the user and the
thread to its sets; then send exactly one moderator notification built
from all the names, the user and the thread; then append exactly one
confirmation message to the user. -/
def SuggestedTagManager.create (tag_names : List String) (user thread : Nat) :
    SuggestedCreateResult :=
  let suggested_tags := tag_names.map (fun tag_name =>
    (⟨tag_name, 1, [user], [thread]⟩ : SuggestedTag))
  let msg := "Tags " ++ String.intercalate (", ") tag_names ++
    " are new and will be submitted for the moderators approval"
  ⟨suggested_tags, [⟨tag_names, user, thread⟩], [msg]⟩

example : pyStartsWith ("python") (pyDropLast ("py*")) = true := by decide
example : pyStartsWith ("java") (pyDropLast ("py*")) = false := by decide
example : clean_group_name ("  Team  Alpha ") = "Team-Alpha" := by decide
example : clean_group_name ("grp") = "grp" := by decide
example : tags_match_some_wildcard ["python"] ["py*"] = true := by
  simp [tags_match_some_wildcard, List.any_eq_true, List.mem_mergeSort]
  decide
example :
    (TagQuerySet.get_by_wildcards
      [⟨"python", 0, false, []⟩, ⟨"pytorch", 0, false, []⟩, ⟨"java", 0, false, []⟩]
      (some ["py*"])).1.map Tag.name = ["python", "pytorch"] := by decide
example :
    separate_unused_tags [⟨"a", 2, false, []⟩, ⟨"b", 0, false, []⟩, ⟨"c", 1, false, []⟩] =
      some ([⟨"a", 2, false, []⟩, ⟨"c", 1, false, []⟩], [⟨"b", 0, false, []⟩]) := by decide
example : separate_unused_tags [⟨"bad", -1, false, []⟩] = none := by decide
example :
    GroupTagManager.get_or_create [] ["devops"] "devops" 7 =
      Except.error DBError.integrityError := rfl
example :
    GroupTagManager.get_or_create ["DevOps"] [] "devops" 7 = Except.ok ("DevOps") := rfl
example :
    (TagQuerySet.get_related_to_search
      [⟨"b", 0, false, [1, 2]⟩, ⟨"a", 0, false, []⟩]
      [1, 2] []).map Tag.name = ["b"] := by
  simp [TagQuerySet.get_related_to_search, localCount, List.mergeSort_singleton]
example :
    TagQuerySet.get_related_to_search [⟨"z", 0, true, [1, 2]⟩] [1, 2] [] = [] := by
  simp [TagQuerySet.get_related_to_search, localCount, List.mergeSort_singleton]
example :
    TagQuerySet.get_related_to_search [⟨"b", 0, false, [1, 2]⟩] [1, 2] ["b"] = [] := by
  simp [TagQuerySet.get_related_to_search, localCount, List.mergeSort_singleton]
example :
    (SuggestedTagManager.create ["newtag"] 3 9).suggested_tags =
      [⟨"newtag", 1, [3], [9]⟩] := by decide

/-! Helper lemmas about the embedded operations. -/

lemma mem_subWsRuns_not_ws :
    ∀ (b : Bool) (l : List Char), ∀ c ∈ subWsRuns b l, pyWhitespace c = false := by
  intro b l
  induction l generalizing b with
  | nil => intro c hc; simp [subWsRuns] at hc
  | cons a rest ih =>
    intro c
    cases ha : pyWhitespace a with
    | true =>
      cases b with
      | true =>
        intro hc
        simp [subWsRuns, ha] at hc
        exact ih true c hc
      | false =>
        intro hc
        simp [subWsRuns, ha] at hc
        rcases hc with hc | hc
        · subst hc; decide
        · exact ih true c hc
    | false =>
      intro hc
      simp [subWsRuns, ha] at hc
      rcases hc with hc | hc
      · subst hc; exact ha
      · exact ih false c hc

lemma dropWhile_eq_self_of_none {p : Char → Bool} {l : List Char}
    (h : ∀ c ∈ l, p c = false) : l.dropWhile p = l := by
  cases l with
  | nil => rfl
  | cons a t => simp [List.dropWhile_cons, h a (List.mem_cons_self a t)]

lemma stripChars_eq_self {l : List Char} (h : ∀ c ∈ l, pyWhitespace c = false) :
    stripChars l = l := by
  unfold stripChars
  rw [dropWhile_eq_self_of_none h,
    dropWhile_eq_self_of_none (fun c hc => h c (List.mem_reverse.mp hc)),
    List.reverse_reverse]

lemma subWsRuns_eq_self_of_none :
    ∀ {l : List Char}, (∀ c ∈ l, pyWhitespace c = false) → subWsRuns false l = l := by
  intro l
  induction l with
  | nil => intro _; rfl
  | cons a rest ih =>
    intro h
    have ha := h a (List.mem_cons_self a rest)
    simp only [subWsRuns, ha, Bool.false_eq_true, if_false, List.cons.injEq, true_and]
    exact ih (fun c hc => h c (List.mem_cons_of_mem a hc))

lemma separate_eq_filters (tags : List Tag) (h : ∀ t ∈ tags, 0 ≤ t.used_count) :
    separate_unused_tags tags =
      some (tags.filter (fun t => !decide (t.used_count = 0)),
            tags.filter (fun t => decide (t.used_count = 0))) := by
  induction tags with
  | nil => rfl
  | cons t rest ih =>
    have ht := h t (List.mem_cons_self t rest)
    have hrest := ih (fun u hu => h u (List.mem_cons_of_mem t hu))
    by_cases hc : t.used_count = 0
    · simp [separate_unused_tags, hc, hrest]
    · have hpos : 0 < t.used_count := lt_of_le_of_ne ht (Ne.symm hc)
      simp [separate_unused_tags, hc, hpos, hrest]

/-! Theorems settling the claims. -/

/-- C1: `tags_match_some_wildcard N W` is true iff some name in `N`
starts with the prefix (wildcard minus its trailing asterisk, i.e.
`w[:-1]`) of some wildcard in `W`; on the empty wildcard set it is
false for every `N`. -/
theorem tags_match_some_wildcard_spec (N W : List String) :
    (tags_match_some_wildcard N W = true ↔
      ∃ n ∈ N, ∃ w ∈ W, pyStartsWith n (pyDropLast w) = true) ∧
    tags_match_some_wildcard N [] = false := by
  have key : ∀ V : List String, tags_match_some_wildcard N V = true ↔
      ∃ n ∈ N, ∃ w ∈ V, pyStartsWith n (pyDropLast w) = true := by
    intro V
    simp [tags_match_some_wildcard, List.any_eq_true, List.mem_mergeSort]
  refine ⟨key W, ?_⟩
  rw [Bool.eq_false_iff]
  intro hcontra
  rcases (key []).mp hcontra with ⟨n, _, w, hw, _⟩
  simp at hw

/-- C7: `clean_group_name` is idempotent: normalizing a group name twice
yields the same result as normalizing it once. -/
theorem clean_group_name_idempotent (name : String) :
    clean_group_name (clean_group_name name) = clean_group_name name := by
  show String.mk (subWsRuns false (stripChars (subWsRuns false (stripChars name.data)))) =
    String.mk (subWsRuns false (stripChars name.data))
  have hno : ∀ c ∈ subWsRuns false (stripChars name.data), pyWhitespace c = false :=
    mem_subWsRuns_not_ws false (stripChars name.data)
  rw [stripChars_eq_self hno, subWsRuns_eq_self_of_none hno]

/-- C3: under the precondition that every input tag has a non-negative
`used_count`, `separate_unused_tags` returns normally with `used` the
in-order tags of positive count, `unused` the in-order tags of zero
count, and `used ++ unused` a permutation of the input. -/
theorem separate_unused_tags_spec (tags : List Tag)
    (h : ∀ t ∈ tags, 0 ≤ t.used_count) :
    ∃ used unused, separate_unused_tags tags = some (used, unused) ∧
      used = tags.filter (fun t => !decide (t.used_count = 0)) ∧
      unused = tags.filter (fun t => decide (t.used_count = 0)) ∧
      (∀ t ∈ used, 0 < t.used_count) ∧
      (∀ t ∈ unused, t.used_count = 0) ∧
      (used ++ unused).Perm tags := by
  refine ⟨tags.filter (fun t => !decide (t.used_count = 0)),
    tags.filter (fun t => decide (t.used_count = 0)),
    separate_eq_filters tags h, rfl, rfl, ?_, ?_, ?_⟩
  · intro t ht
    have hmem := List.mem_of_mem_filter ht
    have hne : ¬(t.used_count = 0) := by
      have := (List.mem_filter.mp ht).2
      simpa using this
    exact lt_of_le_of_ne (h t hmem) (Ne.symm hne)
  · intro t ht
    have := (List.mem_filter.mp ht).2
    simpa using this
  · refine List.Perm.trans List.perm_append_comm ?_
    have := List.filter_append_perm (fun t => decide (t.used_count = 0)) tags
    exact this

/-- Witness for C3: the theorem applied to a concrete tag list whose
counts are non-negative. -/
theorem separate_unused_tags_spec_witness :
    (∀ t ∈ [(⟨"a", 2, false, []⟩ : Tag), ⟨"b", 0, false, []⟩, ⟨"c", 1, false, []⟩],
      0 ≤ t.used_count) ∧
    (∃ used unused,
      separate_unused_tags
        [(⟨"a", 2, false, []⟩ : Tag), ⟨"b", 0, false, []⟩, ⟨"c", 1, false, []⟩] =
        some (used, unused) ∧
      used = [(⟨"a", 2, false, []⟩ : Tag), ⟨"b", 0, false, []⟩,
        ⟨"c", 1, false, []⟩].filter (fun t => !decide (t.used_count = 0)) ∧
      unused = [(⟨"a", 2, false, []⟩ : Tag), ⟨"b", 0, false, []⟩,
        ⟨"c", 1, false, []⟩].filter (fun t => decide (t.used_count = 0)) ∧
      (∀ t ∈ used, 0 < t.used_count) ∧
      (∀ t ∈ unused, t.used_count = 0) ∧
      (used ++ unused).Perm
        [(⟨"a", 2, false, []⟩ : Tag), ⟨"b", 0, false, []⟩, ⟨"c", 1, false, []⟩]) :=
  ⟨by decide,
   separate_unused_tags_spec
     [⟨"a", 2, false, []⟩, ⟨"b", 0, false, []⟩, ⟨"c", 1, false, []⟩] (by decide)⟩

/-- C8: the defensive assertion of `separate_unused_tags` is
unreachable when every `used_count` is non-negative (the function
returns normally), while an input containing a tag with negative
`used_count` makes the call fail the assertion instead of returning. -/
theorem separate_unused_tags_assertion_spec :
    (∀ tags : List Tag, (∀ t ∈ tags, 0 ≤ t.used_count) →
      (separate_unused_tags tags).isSome = true) ∧
    separate_unused_tags [⟨"bad", -1, false, []⟩] = none := by
  constructor
  · intro tags h
    rw [separate_eq_filters tags h]
    rfl
  · decide

/-- Witness for C8: the non-negative branch of the theorem applied to a
concrete tag list. -/
theorem separate_unused_tags_assertion_spec_witness :
    (∀ t ∈ [(⟨"ok", 1, false, []⟩ : Tag)], 0 ≤ t.used_count) ∧
    (separate_unused_tags [(⟨"ok", 1, false, []⟩ : Tag)]).isSome = true :=
  ⟨by decide, separate_unused_tags_assertion_spec.1 [⟨"ok", 1, false, []⟩] (by decide)⟩

/-- C5: `get_by_wildcards` returns exactly the tags whose name starts
with some wildcard's last-character-stripped form; a `None` or empty
wildcard collection yields the empty result; and on tags
`python, pytorch, java` the wildcard `py*` selects `python` and
`pytorch`. -/
theorem get_by_wildcards_spec (tags : List Tag) (ws : List String) :
    (TagQuerySet.get_by_wildcards tags (some ws)).1 =
      tags.filter (fun t => ws.any (fun w => pyStartsWith t.name (pyDropLast w))) ∧
    (TagQuerySet.get_by_wildcards tags none).1 = [] ∧
    (TagQuerySet.get_by_wildcards tags (some ([] : List String))).1 = [] ∧
    (TagQuerySet.get_by_wildcards
      [⟨"python", 0, false, []⟩, ⟨"pytorch", 0, false, []⟩, ⟨"java", 0, false, []⟩]
      (some ["py*"])).1.map Tag.name = ["python", "pytorch"] := by
  refine ⟨?_, rfl, rfl, by decide⟩
  cases hlast : ws.getLast? with
  | none =>
    have hnil : ws = [] := List.getLast?_eq_none_iff.mp hlast
    subst hnil
    simp [TagQuerySet.get_by_wildcards]
  | some first_tag =>
    have hne : ws ≠ [] := by
      intro hn
      subst hn
      simp at hlast
    have hfst : first_tag = ws.getLast hne := by
      rw [List.getLast?_eq_getLast ws hne] at hlast
      exact (Option.some_inj.mp hlast).symm
    simp only [TagQuerySet.get_by_wildcards, hlast]
    apply List.filter_congr
    intro t _
    conv_rhs => rw [← List.dropLast_append_getLast hne]
    rw [List.any_append]
    simp [hfst, Bool.or_comm]

/-- C9: on a non-empty wildcard list, `get_by_wildcards` pops one
element off the caller's collection: the collection afterwards is the
input without its last element, one element shorter, and different from
the input. -/
theorem get_by_wildcards_pops_argument (tags : List Tag) (ws : List String)
    (h : ws ≠ []) :
    (TagQuerySet.get_by_wildcards tags (some ws)).2 = some ws.dropLast ∧
    ws.dropLast.length + 1 = ws.length ∧
    (TagQuerySet.get_by_wildcards tags (some ws)).2 ≠ some ws := by
  have hlast := List.getLast?_eq_getLast ws h
  have hsnd : (TagQuerySet.get_by_wildcards tags (some ws)).2 = some ws.dropLast := by
    simp [TagQuerySet.get_by_wildcards, hlast]
  have hpos : 0 < ws.length := List.length_pos.mpr h
  have hlen : ws.dropLast.length + 1 = ws.length := by
    rw [List.length_dropLast]
    omega
  refine ⟨hsnd, hlen, ?_⟩
  rw [hsnd]
  intro hcontra
  have heq : ws.dropLast = ws := Option.some_inj.mp hcontra
  have := congrArg List.length heq
  omega

/-- Witness for C9: the theorem applied to the concrete wildcard list
`["py*"]` over the empty tag store. -/
theorem get_by_wildcards_pops_argument_witness :
    (["py*"] : List String) ≠ [] ∧
    ((TagQuerySet.get_by_wildcards [] (some ["py*"])).2 =
        some (["py*"] : List String).dropLast ∧
      (["py*"] : List String).dropLast.length + 1 = (["py*"] : List String).length ∧
      (TagQuerySet.get_by_wildcards [] (some ["py*"])).2 ≠ some ["py*"]) :=
  ⟨by decide, get_by_wildcards_pops_argument [] ["py*"] (by decide)⟩

/-- C2 counterexample: with an empty store at lookup time and a store
already holding `devops` at create time, the case-insensitive lookup
finds nothing, the create hits the uniqueness violation, and
`get_or_create` surfaces the integrity error instead of re-fetching and
returning the existing tag — refuting the claim at this input. -/
theorem get_or_create_race_counterexample :
    ([] : List String).find?
      (fun t => pyLower t == pyLower (clean_group_name ("devops"))) = none ∧
    (["devops"] : List String).contains (clean_group_name ("devops")) = true ∧
    GroupTagManager.get_or_create [] ["devops"] "devops" 7 =
      Except.error DBError.integrityError := ⟨rfl, rfl, rfl⟩

/-- C2 as amended: when the case-insensitive lookup finds no existing
tag and the create then violates uniqueness (a tag with the normalized
name exists at create time), `get_or_create` does not catch the
violation — only the not-found case of the lookup is handled — so the
integrity error propagates to the caller. -/
theorem get_or_create_propagates_integrity_error (sL sC : List String)
    (g : String) (u : Nat)
    (h1 : sL.find? (fun t => pyLower t == pyLower (clean_group_name g)) = none)
    (h2 : sC.contains (clean_group_name g) = true) :
    GroupTagManager.get_or_create sL sC g u = Except.error DBError.integrityError := by
  unfold GroupTagManager.get_or_create
  simp only [h1, h2, if_true]

/-- Witness for the amended C2: a lookup store without the group, a
create-time store already holding the normalized name `dev-ops`. -/
theorem get_or_create_propagates_integrity_error_witness :
    (["alpha"] : List String).find?
      (fun t => pyLower t == pyLower (clean_group_name ("dev ops"))) = none ∧
    (["dev-ops"] : List String).contains (clean_group_name ("dev ops")) = true ∧
    GroupTagManager.get_or_create ["alpha"] ["dev-ops"] "dev ops" 3 =
      Except.error DBError.integrityError :=
  ⟨by decide, by decide,
   get_or_create_propagates_integrity_error ["alpha"] ["dev-ops"] "dev ops" 3
     (by decide) (by decide)⟩

/-- C6: `SuggestedTagManager.create` makes one new `SuggestedTag` row
per requested name carrying the submitting user and the thread, sends
exactly one moderator notification summarizing all the names, the user
and the thread, and appends exactly one confirmation message to the
user; in particular one call with `["newtag"]` creates exactly the one
row named `newtag` with that user and thread attached. -/
theorem suggested_tag_create_spec (names : List String) (user thread : Nat) :
    (SuggestedTagManager.create names user thread).suggested_tags =
      names.map (fun n => (⟨n, 1, [user], [thread]⟩ : SuggestedTag)) ∧
    (SuggestedTagManager.create names user thread).suggested_tags.length =
      names.length ∧
    (SuggestedTagManager.create names user thread).notifications =
      [⟨names, user, thread⟩] ∧
    (SuggestedTagManager.create names user thread).user_messages.length = 1 ∧
    (SuggestedTagManager.create ["newtag"] user thread).suggested_tags =
      [⟨"newtag", 1, [user], [thread]⟩] :=
  ⟨rfl, by simp [SuggestedTagManager.create], rfl, rfl, rfl⟩

/-- C10: on the empty name list, `SuggestedTagManager.create` creates
no rows and returns the empty list, yet still sends exactly one
moderator notification (with the empty name list) and still appends
one confirmation message to the user. -/
theorem suggested_tag_create_empty (user thread : Nat) :
    (SuggestedTagManager.create [] user thread).suggested_tags = [] ∧
    (SuggestedTagManager.create [] user thread).notifications =
      [⟨[], user, thread⟩] ∧
    (SuggestedTagManager.create [] user thread).user_messages.length = 1 :=
  ⟨rfl, rfl, rfl⟩

lemma relatedLe_trans (threads : List Nat) :
    ∀ a b c : Tag, relatedLe threads a b = true → relatedLe threads b c = true →
      relatedLe threads a c = true := by
  intro a b c hab hbc
  simp only [relatedLe, decide_eq_true_eq] at hab hbc ⊢
  rcases hab with h1 | ⟨h1, h1n⟩ <;> rcases hbc with h2 | ⟨h2, h2n⟩
  · exact Or.inl (lt_trans h2 h1)
  · exact Or.inl (by omega)
  · exact Or.inl (by omega)
  · exact Or.inr ⟨by omega, le_trans h1n h2n⟩

lemma relatedLe_total (threads : List Nat) :
    ∀ a b : Tag, (relatedLe threads a b || relatedLe threads b a) = true := by
  intro a b
  simp only [relatedLe, Bool.or_eq_true, decide_eq_true_eq]
  rcases Nat.lt_trichotomy (localCount threads a) (localCount threads b) with h | h | h
  · exact Or.inr (Or.inl h)
  · rcases le_total a.name b.name with hn | hn
    · exact Or.inl (Or.inr ⟨h, hn⟩)
    · exact Or.inr (Or.inr ⟨h.symm, hn⟩)
  · exact Or.inl (Or.inl h)

/-- C4: `get_related_to_search` returns at most 50 tags, in an order
where local used count never increases and ties are resolved by
ascending name, and the result contains no ignored name and no deleted
tag. -/
theorem get_related_to_search_spec (tags : List Tag) (threads : List Nat)
    (ignored : List String) :
    (TagQuerySet.get_related_to_search tags threads ignored).length ≤ 50 ∧
    List.Pairwise
      (fun a b => localCount threads b < localCount threads a ∨
        (localCount threads a = localCount threads b ∧ a.name ≤ b.name))
      (TagQuerySet.get_related_to_search tags threads ignored) ∧
    (∀ t ∈ TagQuerySet.get_related_to_search tags threads ignored,
      t.name ∉ ignored ∧ t.deleted = false) := by
  have hsorted : List.Pairwise (fun a b : Tag => relatedLe threads a b = true)
      ((tags.filter (fun t => decide (0 < localCount threads t))).mergeSort
        (relatedLe threads)) :=
    List.sorted_mergeSort (relatedLe_trans threads) (relatedLe_total threads) _
  have hpair : List.Pairwise
      (fun a b : Tag => localCount threads b < localCount threads a ∨
        (localCount threads a = localCount threads b ∧ a.name ≤ b.name))
      ((tags.filter (fun t => decide (0 < localCount threads t))).mergeSort
        (relatedLe threads)) :=
    hsorted.imp (fun h => by
      simpa only [relatedLe, decide_eq_true_eq] using h)
  by_cases hemp : ignored.isEmpty
  · have hres : TagQuerySet.get_related_to_search tags threads ignored =
        (((tags.filter (fun t => decide (0 < localCount threads t))).mergeSort
          (relatedLe threads)).filter (fun t => !t.deleted)).take 50 := by
      simp only [TagQuerySet.get_related_to_search, hemp, if_true]
    have hsub : ((((tags.filter (fun t => decide (0 < localCount threads t))).mergeSort
        (relatedLe threads)).filter (fun t => !t.deleted)).take 50).Sublist
        ((tags.filter (fun t => decide (0 < localCount threads t))).mergeSort
          (relatedLe threads)) :=
      (List.take_sublist _ _).trans (List.filter_sublist _)
    refine ⟨?_, ?_, ?_⟩
    · rw [hres]
      exact List.length_take_le _ _
    · rw [hres]
      exact hpair.sublist hsub
    · intro t ht
      rw [hres] at ht
      have hmem := List.mem_filter.mp (List.mem_of_mem_take ht)
      have hign : ignored = [] := List.isEmpty_iff.mp hemp
      refine ⟨by simp [hign], ?_⟩
      simpa using hmem.2
  · have hres : TagQuerySet.get_related_to_search tags threads ignored =
        ((((tags.filter (fun t => decide (0 < localCount threads t))).mergeSort
          (relatedLe threads)).filter (fun t => !ignored.contains t.name)).filter
            (fun t => !t.deleted)).take 50 := by
      simp only [TagQuerySet.get_related_to_search, hemp, Bool.false_eq_true, if_false]
    have hsub : (((((tags.filter (fun t => decide (0 < localCount threads t))).mergeSort
        (relatedLe threads)).filter (fun t => !ignored.contains t.name)).filter
          (fun t => !t.deleted)).take 50).Sublist
        ((tags.filter (fun t => decide (0 < localCount threads t))).mergeSort
          (relatedLe threads)) :=
      ((List.take_sublist _ _).trans (List.filter_sublist _)).trans
        (List.filter_sublist _)
    refine ⟨?_, ?_, ?_⟩
    · rw [hres]
      exact List.length_take_le _ _
    · rw [hres]
      exact hpair.sublist hsub
    · intro t ht
      rw [hres] at ht
      have hmem := List.mem_filter.mp (List.mem_of_mem_take ht)
      have hmem2 := List.mem_filter.mp hmem.1
      constructor
      · have : (ignored.contains t.name) = false := by simpa using hmem2.2
        simpa using this
      · simpa using hmem.2
